import Mathlib

/-!
Verification development for the fund-flow-dashboard estimate and
sector-attribution pipeline.

The repository ships the frontend (Next.js components) together with an
embedded rules document describing the backend services.  The backend
service code itself (fund_realtime_estimate.py, fund_sector_mapper.py,
the attribution cache) is not part of the available sources, so the
engine definitions below are modelled from the specification document;
the frontend definitions (FundHeaderCard, HomePage chart-period state)
are translated directly from the TypeScript sources.

All money and percentage arithmetic is carried out over the rationals,
so equalities that the specification states up to a floating-point
tolerance of 1e-9 hold here exactly.
-/

namespace FundFlow

/-! ## Data model -/

/-- One disclosed top-N holding of a fund: stock code, stock name,
weight in percent, 1-based rank. -/
structure Holding where
  stockCode : String
  stockName : String
  weight : ℚ
  rank : Nat
deriving DecidableEq, Repr

/-- A live quote for one stock: current price and change-percent versus
the prior close. -/
structure LiveQuote where
  price : ℚ
  changePercent : ℚ
deriving DecidableEq, Repr

/-- The quotes mapping handed to the estimate engine: an association
list from stock code to live quote; entries may be missing for some
holdings. -/
abbrev Quotes := List (String × LiveQuote)

/-- Typed failure of the estimate engine. -/
inductive EstimateError where
  | DataUnavailable
deriving DecidableEq, Repr

/-- Typed failure of the attribution engine. -/
inductive AttributionError where
  | InsufficientData
deriving DecidableEq, Repr

/-- The result of one estimate call: fund code, estimated current
value, absolute and percent change versus the last net value. -/
structure FundEstimate where
  fundCode : String
  current : ℚ
  change : ℚ
  changePercent : ℚ
deriving DecidableEq, Repr

/-! ## RealtimeEstimateEngine (modelled from the spec) -/

/-- Modelled from the spec: the fixed correction factor (1.2) applied to
the weighted change of the disclosed top-N holdings; the backend service
fund_realtime_estimate.py is not among the available sources, only the
embedded rules document stating the algorithm Σ(change × weight) × 1.2. -/
def correctionFactor : ℚ := 12 / 10

/-- Modelled from the spec: change-percent contributed by one stock
code; a missing quote entry contributes zero change, not an error. -/
def quoteChange (quotes : Quotes) (code : String) : ℚ :=
  match quotes.lookup code with
  | some q => q.changePercent
  | none => 0

/-- Modelled from the spec: the weighted change Σ(holding.weight ×
quote.changePercent) over the holdings of the snapshot, missing quotes
contributing zero. -/
def weightedChange (holdings : List Holding) (quotes : Quotes) : ℚ :=
  (holdings.map (fun h => h.weight * quoteChange quotes h.stockCode)).sum

/-- Modelled from the spec: the estimate contract of
RealtimeEstimateEngine.  If the last net value is unknown (none) or
zero the call fails with DataUnavailable; otherwise the percent change
is the weighted change divided by 100 and multiplied by the correction
factor, and it is applied to the last net value. -/
def estimate (fundCode : String) (holdings : List Holding) (quotes : Quotes)
    (lastNetValue : Option ℚ) : Except EstimateError FundEstimate :=
  match lastNetValue with
  | none => .error .DataUnavailable
  | some v =>
      if v = 0 then .error .DataUnavailable
      else
        let pc := weightedChange holdings quotes / 100 * correctionFactor
        .ok ⟨fundCode, v * (1 + pc / 100), v * pc / 100, pc⟩

/-! ## Helper lemmas about the estimate engine -/

theorem lookup_filterOut_self {β : Type} (l : List (String × β)) (c : String) :
    (l.filter (fun p => !(p.1 == c))).lookup c = none := by
  induction l with
  | nil => rfl
  | cons p t ih =>
      by_cases hp : p.1 = c
      · simpa [List.filter_cons, hp] using ih
      · have hb : (p.1 == c) = false := beq_eq_false_iff_ne.mpr hp
        have hcb : (c == p.1) = false := beq_eq_false_iff_ne.mpr (Ne.symm hp)
        cases p with
        | mk k v =>
            simp only at hb hcb
            simpa [List.filter_cons, List.lookup_cons, hb, hcb] using ih

theorem lookup_filterOut_ne {β : Type} (l : List (String × β)) (c d : String) (h : d ≠ c) :
    (l.filter (fun p => !(p.1 == c))).lookup d = l.lookup d := by
  induction l with
  | nil => rfl
  | cons p t ih =>
      cases p with
      | mk k v =>
          by_cases hp : k = c
          · have hd : (d == c) = false := beq_eq_false_iff_ne.mpr h
            simpa [List.filter_cons, List.lookup_cons, hp, hd] using ih
          · have hb : (k == c) = false := beq_eq_false_iff_ne.mpr hp
            by_cases hdp : d = k
            · simp [List.filter_cons, List.lookup_cons, hb, hdp]
            · have hd : (d == k) = false := beq_eq_false_iff_ne.mpr hdp
              simpa [List.filter_cons, List.lookup_cons, hb, hd] using ih

theorem quoteChange_filterOut_self (quotes : Quotes) (c : String) :
    quoteChange (quotes.filter (fun p => !(p.1 == c))) c = 0 := by
  unfold quoteChange
  rw [lookup_filterOut_self]

theorem quoteChange_filterOut_ne (quotes : Quotes) (c d : String) (h : d ≠ c) :
    quoteChange (quotes.filter (fun p => !(p.1 == c))) d = quoteChange quotes d := by
  unfold quoteChange
  rw [lookup_filterOut_ne _ _ _ h]

theorem weightedChange_filterOut_sub (holdings : List Holding) (quotes : Quotes) (c : String) :
    weightedChange holdings quotes
        - weightedChange holdings (quotes.filter (fun p => !(p.1 == c)))
      = ((holdings.filter (fun h => h.stockCode == c)).map (fun h => h.weight)).sum
          * quoteChange quotes c := by
  induction holdings with
  | nil => simp [weightedChange]
  | cons h t ih =>
      by_cases hc : h.stockCode = c
      · have hz := quoteChange_filterOut_self quotes c
        simp only [weightedChange, List.map_cons, List.sum_cons, List.filter_cons,
          beq_iff_eq, hc, if_pos] at *
        rw [hz]
        ring_nf
        linarith [ih]
      · have hq := quoteChange_filterOut_ne quotes c h.stockCode hc
        simp only [weightedChange, List.map_cons, List.sum_cons, List.filter_cons,
          beq_iff_eq, hc, if_false] at *
        rw [hq]
        ring_nf
        linarith [ih]

/-! ## Concrete scenario data from the specification -/

/-- The three-holding snapshot of the specification scenario:
A 30 percent, B 20 percent, C 10 percent. -/
def scenarioHoldings : List Holding :=
  [⟨"A", "StockA", 30, 1⟩, ⟨"B", "StockB", 20, 2⟩, ⟨"C", "StockC", 10, 3⟩]

/-- The quotes of the specification scenario: change-percent A +2,
B -1, C +5. -/
def scenarioQuotes : Quotes :=
  [("A", ⟨0, 2⟩), ("B", ⟨0, -1⟩), ("C", ⟨0, 5⟩)]

/-! ## Claims about the estimate engine -/

/-- C1: for every non-empty holdings snapshot whose weights sum to at
most 100 and every quotes mapping containing a quote for each holding,
estimate returns a percent change equal to the sum of weight times
changePercent over the holdings, divided by 100 and multiplied by the
correction factor 1.2, and the estimated value equals lastNetValue
scaled by that percent change; for the snapshot A 30, B 20, C 10 with
changes A +2, B -1, C +5 and lastNetValue 1.5 the percent change is
1.08 and the estimate is 1.5162 (exactly, over the rationals). -/
theorem estimate_weighted_formula :
    (∀ (fc : String) (holdings : List Holding) (quotes : Quotes) (v : ℚ),
        holdings ≠ [] →
        (holdings.map (fun h => h.weight)).sum ≤ 100 →
        (∀ h ∈ holdings, (quotes.lookup h.stockCode).isSome = true) →
        v ≠ 0 →
        ∃ e, estimate fc holdings quotes (some v) = .ok e ∧
          e.changePercent
            = (holdings.map (fun h => h.weight * quoteChange quotes h.stockCode)).sum
                / 100 * correctionFactor ∧
          e.current = v * (1 + e.changePercent / 100)) ∧
    (∃ e, estimate "F" scenarioHoldings scenarioQuotes (some (15 / 10)) = .ok e ∧
        e.changePercent = 108 / 100 ∧ e.current = 15162 / 10000) := by
  have main : ∀ (fc : String) (holdings : List Holding) (quotes : Quotes) (v : ℚ),
      holdings ≠ [] →
      (holdings.map (fun h => h.weight)).sum ≤ 100 →
      (∀ h ∈ holdings, (quotes.lookup h.stockCode).isSome = true) →
      v ≠ 0 →
      ∃ e, estimate fc holdings quotes (some v) = .ok e ∧
        e.changePercent
          = (holdings.map (fun h => h.weight * quoteChange quotes h.stockCode)).sum
              / 100 * correctionFactor ∧
        e.current = v * (1 + e.changePercent / 100) := by
    intro fc holdings quotes v _ _ _ hv
    refine ⟨⟨fc,
        v * (1 + weightedChange holdings quotes / 100 * correctionFactor / 100),
        v * (weightedChange holdings quotes / 100 * correctionFactor) / 100,
        weightedChange holdings quotes / 100 * correctionFactor⟩, ?_, rfl, rfl⟩
    simp [estimate, hv]
  refine ⟨main, ?_⟩
  have hv : (15 / 10 : ℚ) ≠ 0 := by norm_num
  obtain ⟨e, he, hpc, hcur⟩ := main "F" scenarioHoldings scenarioQuotes (15 / 10)
    (by simp [scenarioHoldings]) (by simp [scenarioHoldings]; norm_num)
    (by decide) hv
  have hpc2 : e.changePercent = 108 / 100 := by
    rw [hpc]
    simp [scenarioHoldings, scenarioQuotes, quoteChange, List.lookup_cons, correctionFactor]
    norm_num
  refine ⟨e, he, hpc2, ?_⟩
  rw [hcur, hpc2]
  norm_num

/-- C1 witness: the universal part of C1 applied to the concrete
three-holding scenario of the specification with lastNetValue 1.5. -/
theorem estimate_weighted_formula_witness :
    ∃ e, estimate "F" scenarioHoldings scenarioQuotes (some (15 / 10)) = .ok e ∧
      e.changePercent
        = (scenarioHoldings.map (fun h => h.weight *
            quoteChange scenarioQuotes h.stockCode)).sum / 100 * correctionFactor ∧
      e.current = 15 / 10 * (1 + e.changePercent / 100) :=
  estimate_weighted_formula.1 "F" scenarioHoldings scenarioQuotes (15 / 10)
    (by simp [scenarioHoldings]) (by simp [scenarioHoldings]; norm_num)
    (by decide) (by norm_num)

/-- C2: when the quotes mapping is missing the entry of one holding the
estimate engine treats that contribution as zero change and returns
normally; removing the quote of the single holding with stock code c
changes the percent change by exactly weight times changePercent
divided by 100 times the correction factor, and never causes an
error. -/
theorem estimate_missing_quote :
    ∀ (fc : String) (holdings : List Holding) (quotes : Quotes) (c : String)
      (h0 : Holding) (lq : LiveQuote) (v : ℚ),
      holdings.filter (fun h => h.stockCode == c) = [h0] →
      quotes.lookup c = some lq →
      v ≠ 0 →
      ∃ e e2,
        estimate fc holdings quotes (some v) = .ok e ∧
        estimate fc holdings (quotes.filter (fun p => !(p.1 == c))) (some v) = .ok e2 ∧
        e.changePercent - e2.changePercent
          = h0.weight * lq.changePercent / 100 * correctionFactor := by
  intro fc holdings quotes c h0 lq v hfil hq hv
  refine ⟨⟨fc,
      v * (1 + weightedChange holdings quotes / 100 * correctionFactor / 100),
      v * (weightedChange holdings quotes / 100 * correctionFactor) / 100,
      weightedChange holdings quotes / 100 * correctionFactor⟩,
    ⟨fc,
      v * (1 + weightedChange holdings (quotes.filter (fun p => !(p.1 == c)))
            / 100 * correctionFactor / 100),
      v * (weightedChange holdings (quotes.filter (fun p => !(p.1 == c)))
            / 100 * correctionFactor) / 100,
      weightedChange holdings (quotes.filter (fun p => !(p.1 == c)))
            / 100 * correctionFactor⟩, ?_, ?_, ?_⟩
  · simp [estimate, hv]
  · simp [estimate, hv]
  · have hsub := weightedChange_filterOut_sub holdings quotes c
    rw [hfil] at hsub
    have hqc : quoteChange quotes c = lq.changePercent := by
      unfold quoteChange
      rw [hq]
    rw [hqc] at hsub
    simp only [List.map_cons, List.map_nil, List.sum_cons, List.sum_nil, add_zero] at hsub
    field_simp
    linear_combination correctionFactor * hsub

/-- C2 witness: removing the quote for stock A from a two-holding
snapshot changes the percent change by 30 times 2 over 100 times 1.2
and both calls return normally. -/
theorem estimate_missing_quote_witness :
    ∃ e e2,
      estimate "F" [⟨"A", "StockA", 30, 1⟩, ⟨"B", "StockB", 20, 2⟩]
          [("A", ⟨0, 2⟩), ("B", ⟨0, -1⟩)] (some 1) = .ok e ∧
      estimate "F" [⟨"A", "StockA", 30, 1⟩, ⟨"B", "StockB", 20, 2⟩]
          ([("A", (⟨0, 2⟩ : LiveQuote)), ("B", ⟨0, -1⟩)].filter
            (fun p => !(p.1 == "A"))) (some 1) = .ok e2 ∧
      e.changePercent - e2.changePercent
        = (⟨"A", "StockA", 30, 1⟩ : Holding).weight
            * (⟨0, 2⟩ : LiveQuote).changePercent / 100 * correctionFactor :=
  estimate_missing_quote "F" [⟨"A", "StockA", 30, 1⟩, ⟨"B", "StockB", 20, 2⟩]
    [("A", ⟨0, 2⟩), ("B", ⟨0, -1⟩)] "A" ⟨"A", "StockA", 30, 1⟩ ⟨0, 2⟩ 1
    (by decide) (by decide) (by norm_num)

/-- C3: the estimate engine fails with the typed error DataUnavailable
exactly when the last net value is unknown (none) or zero; in
particular no other outcome is reachable under that precondition and no
division by the last net value occurs. -/
theorem estimate_error_iff :
    ∀ (fc : String) (holdings : List Holding) (quotes : Quotes) (lnv : Option ℚ),
      estimate fc holdings quotes lnv = .error .DataUnavailable
        ↔ lnv = none ∨ lnv = some 0 := by
  intro fc holdings quotes lnv
  cases lnv with
  | none => simp [estimate]
  | some v =>
      by_cases hv : v = 0
      · simp [estimate, hv]
      · simp [estimate, hv]

/-! ## SectorAttributionEngine (modelled from the spec) -/

/-- The sector lookup capability: stock code to sector code and sector
name, or none when the sector is unknown. -/
abbrev SectorLookup := String → Option (String × String)

/-- A holding together with its resolved sector code and name. -/
structure ResolvedHolding where
  holding : Holding
  sectorCode : String
  sectorName : String
deriving DecidableEq, Repr

/-- Modelled from the spec: the holdings of the snapshot whose sector
resolves, paired with the resolved sector; holdings with unknown sector
are dropped (they are excluded from the confidence denominator). -/
def resolve (lookup : SectorLookup) (holdings : List Holding) : List ResolvedHolding :=
  holdings.filterMap (fun h => (lookup h.stockCode).map (fun s => ⟨h, s.1, s.2⟩))

/-- Aggregate weight of one sector over the resolved holdings. -/
def sectorWeight (R : List ResolvedHolding) (s : String) : ℚ :=
  ((R.filter (fun r => r.sectorCode == s)).map (fun r => r.holding.weight)).sum

/-- Weight of the single highest-weighted holding inside one sector
(zero when the sector has no holding), used by the first tie-break. -/
def sectorTopHolding (R : List ResolvedHolding) (s : String) : ℚ :=
  ((R.filter (fun r => r.sectorCode == s)).map (fun r => r.holding.weight)).foldr max 0

/-- Modelled from the spec: the dominance order between sector codes;
a beats b when its aggregate weight is larger, with ties broken first
by the highest-weighted individual holding and then by the
lexicographically smaller sector code. -/
def Better (R : List ResolvedHolding) (a b : String) : Prop :=
  sectorWeight R b < sectorWeight R a ∨
    (sectorWeight R a = sectorWeight R b ∧
      (sectorTopHolding R b < sectorTopHolding R a ∨
        (sectorTopHolding R a = sectorTopHolding R b ∧ a < b)))

instance (R : List ResolvedHolding) (a b : String) : Decidable (Better R a b) := by
  unfold Better
  infer_instance

/-- The distinct sector codes occurring among the resolved holdings,
in first-occurrence order. -/
def sectorCodes (R : List ResolvedHolding) : List String :=
  (R.map (fun r => r.sectorCode)).dedup

/-- Modelled from the spec: the dominant sector is the maximum of the
resolved sector codes under the dominance order, none when no holding
resolves. -/
def pickDominant (R : List ResolvedHolding) : Option String :=
  match sectorCodes R with
  | [] => none
  | s :: rest => some (rest.foldl (fun best c => if Better R c best then c else best) s)

/-- The sum of the weights of all holdings with a resolved sector: the
confidence denominator. -/
def resolvedWeight (R : List ResolvedHolding) : ℚ :=
  (R.map (fun r => r.holding.weight)).sum

/-- Sector name displayed for the dominant sector: the name recorded
with the first holding resolving to it. -/
def domName (R : List ResolvedHolding) (s : String) : String :=
  match R.find? (fun r => r.sectorCode == s) with
  | some r => r.sectorName
  | none => ""

/-- Modelled from the spec: the deterministic human-readable
justification string enumerating the holdings that drove the
dominant-sector choice, with an explicit degraded-coverage note when
less than half of the total weight resolves. -/
def justification (R : List ResolvedHolding) (s : String) (low : Bool) : String :=
  let contributors := (R.filter (fun r => r.sectorCode == s)).map
    (fun r => r.holding.stockName ++ " " ++ toString r.holding.weight ++ "%")
  let base := "dominant sector " ++ s ++ " driven by " ++
    String.intercalate ", " contributors
  if low then base ++ "; degraded coverage: under half of total weight resolved"
  else base

/-- The attribution record: fund code, dominant sector code and name,
confidence in the unit interval, justification, low-coverage flag. -/
structure SectorAttribution where
  fundCode : String
  sector : String
  sectorName : String
  confidence : ℚ
  justification : String
  lowCoverage : Bool
deriving DecidableEq, Repr

/-- Modelled from the spec: the attribute contract of
SectorAttributionEngine.  An empty snapshot, and a snapshot none of
whose holdings resolves to a known sector, fail with InsufficientData;
otherwise the dominant sector is picked by aggregate weight with the
deterministic tie-break, and the confidence is its aggregate weight
divided by the total resolved weight. -/
def sectorAttribute (fundCode : String) (holdings : List Holding)
    (lookup : SectorLookup) : Except AttributionError SectorAttribution :=
  if holdings.isEmpty then .error .InsufficientData
  else
    match pickDominant (resolve lookup holdings) with
    | none => .error .InsufficientData
    | some dom =>
        let R := resolve lookup holdings
        let low := decide (resolvedWeight R < (holdings.map (fun h => h.weight)).sum / 2)
        .ok ⟨fundCode, dom, domName R dom,
          sectorWeight R dom / resolvedWeight R, justification R dom low, low⟩

/-! ## Properties of the dominance order -/

theorem Better_irrefl (R : List ResolvedHolding) (a : String) : ¬ Better R a a := by
  simp [Better, lt_irrefl]

theorem Better_asymm (R : List ResolvedHolding) {a b : String}
    (h : Better R a b) : ¬ Better R b a := by
  rcases h with h | ⟨hW, h⟩
  · rintro (h2 | ⟨hW2, h2⟩)
    · exact absurd h2 (not_lt.mpr h.le)
    · exact absurd h (by rw [hW2]; exact lt_irrefl _)
  · rcases h with h | ⟨hT, h⟩
    · rintro (h2 | ⟨hW2, h2⟩)
      · exact absurd h2 (not_lt.mpr hW.ge)
      · rcases h2 with h2 | ⟨hT2, h2⟩
        · exact absurd h2 (not_lt.mpr h.le)
        · exact absurd h (by rw [hT2]; exact lt_irrefl _)
    · rintro (h2 | ⟨hW2, h2⟩)
      · exact absurd h2 (not_lt.mpr hW.ge)
      · rcases h2 with h2 | ⟨hT2, h2⟩
        · exact absurd h2 (by rw [hT]; exact lt_irrefl _)
        · exact absurd h2 (not_lt.mpr h.le)

theorem notBetter_trans (R : List ResolvedHolding) {a b c : String}
    (hab : ¬ Better R a b) (hbc : ¬ Better R b c) : ¬ Better R a c := by
  unfold Better at hab hbc
  push_neg at hab hbc
  obtain ⟨hW1, hrest1⟩ := hab
  obtain ⟨hW2, hrest2⟩ := hbc
  rintro (h | ⟨hW, h⟩)
  · exact absurd h (not_lt.mpr (le_trans hW1 hW2))
  · have hWab : sectorWeight R a = sectorWeight R b :=
      le_antisymm hW1 (by rw [hW]; exact hW2)
    have hWbc : sectorWeight R b = sectorWeight R c := by
      rw [← hWab]
      exact hW
    obtain ⟨hT1, hrest1b⟩ := hrest1 hWab
    obtain ⟨hT2, hrest2b⟩ := hrest2 hWbc
    rcases h with h | ⟨hT, h⟩
    · exact absurd h (not_lt.mpr (le_trans hT1 hT2))
    · have hTab : sectorTopHolding R a = sectorTopHolding R b :=
        le_antisymm hT1 (by rw [hT]; exact hT2)
      have hTbc : sectorTopHolding R b = sectorTopHolding R c := by
        rw [← hTab]
        exact hT
      have hba := hrest1b hTab
      have hcb := hrest2b hTbc
      exact absurd h (not_lt.mpr (le_trans hcb hba))

theorem pickFold_mem (R : List ResolvedHolding) (l : List String) (init : String) :
    l.foldl (fun best c => if Better R c best then c else best) init = init ∨
      l.foldl (fun best c => if Better R c best then c else best) init ∈ l := by
  induction l generalizing init with
  | nil => exact Or.inl rfl
  | cons c t ih =>
      simp only [List.foldl_cons]
      by_cases hb : Better R c init
      · rw [if_pos hb]
        rcases ih c with h | h
        · rw [h]
          exact Or.inr (List.mem_cons_self c t)
        · exact Or.inr (List.mem_cons_of_mem c h)
      · rw [if_neg hb]
        rcases ih init with h | h
        · exact Or.inl h
        · exact Or.inr (List.mem_cons_of_mem c h)

theorem pickFold_max (R : List ResolvedHolding) (l : List String) (init : String) :
    ∀ x, (x = init ∨ x ∈ l) →
      ¬ Better R x (l.foldl (fun best c => if Better R c best then c else best) init) := by
  induction l generalizing init with
  | nil =>
      rintro x (rfl | h)
      · exact Better_irrefl R x
      · cases h
  | cons c t ih =>
      intro x hx
      simp only [List.foldl_cons]
      by_cases hb : Better R c init
      · rw [if_pos hb]
        have hstep : ¬ Better R c
            (t.foldl (fun best c => if Better R c best then c else best) c) :=
          ih c c (Or.inl rfl)
        rcases hx with rfl | hx
        · exact notBetter_trans R (Better_asymm R hb) hstep
        · rcases List.mem_cons.mp hx with rfl | hx
          · exact hstep
          · exact ih c x (Or.inr hx)
      · rw [if_neg hb]
        have hstep : ¬ Better R init
            (t.foldl (fun best c => if Better R c best then c else best) init) :=
          ih init init (Or.inl rfl)
        rcases hx with rfl | hx
        · exact hstep
        · rcases List.mem_cons.mp hx with rfl | hx
          · exact notBetter_trans R hb hstep
          · exact ih init x (Or.inr hx)

theorem pickDominant_mem (R : List ResolvedHolding) (dom : String)
    (h : pickDominant R = some dom) : dom ∈ sectorCodes R := by
  revert h
  unfold pickDominant
  cases hsc : sectorCodes R with
  | nil =>
      intro h
      cases h
  | cons s rest =>
      intro h
      have hd := Option.some.inj h
      rw [← hd]
      rcases pickFold_mem R rest s with hm | hm
      · rw [hm]
        exact List.mem_cons_self s rest
      · exact List.mem_cons_of_mem s hm

theorem pickDominant_max (R : List ResolvedHolding) (dom : String)
    (h : pickDominant R = some dom) : ∀ s ∈ sectorCodes R, ¬ Better R s dom := by
  revert h
  unfold pickDominant
  cases hsc : sectorCodes R with
  | nil =>
      intro h
      cases h
  | cons s0 rest =>
      intro h s hs
      have hd := Option.some.inj h
      have hx : s = s0 ∨ s ∈ rest := List.mem_cons.mp hs
      rw [← hd]
      exact pickFold_max R rest s0 s hx

theorem pickDominant_of_ne_nil (R : List ResolvedHolding) (hR : R ≠ []) :
    ∃ dom, pickDominant R = some dom := by
  unfold pickDominant
  cases hsc : sectorCodes R with
  | nil =>
      exfalso
      apply hR
      unfold sectorCodes at hsc
      exact List.map_eq_nil_iff.mp ((List.dedup_eq_nil _).mp hsc)
  | cons s rest => exact ⟨_, rfl⟩

theorem mem_sectorCodes_iff (R : List ResolvedHolding) (s : String) :
    s ∈ sectorCodes R ↔ ∃ r ∈ R, r.sectorCode = s := by
  unfold sectorCodes
  rw [List.mem_dedup, List.mem_map]

/-! ## Characterization of sectorAttribute -/

theorem sectorAttribute_eq_ok (fc : String) (holdings : List Holding)
    (lookup : SectorLookup) (dom : String) (hne : holdings ≠ [])
    (hdom : pickDominant (resolve lookup holdings) = some dom) :
    sectorAttribute fc holdings lookup = .ok
      ⟨fc, dom, domName (resolve lookup holdings) dom,
        sectorWeight (resolve lookup holdings) dom / resolvedWeight (resolve lookup holdings),
        justification (resolve lookup holdings) dom
          (decide (resolvedWeight (resolve lookup holdings)
            < (holdings.map (fun h => h.weight)).sum / 2)),
        decide (resolvedWeight (resolve lookup holdings)
          < (holdings.map (fun h => h.weight)).sum / 2)⟩ := by
  unfold sectorAttribute
  rw [if_neg (by simpa [List.isEmpty_iff] using hne), hdom]

theorem sectorAttribute_ok_elim (fc : String) (holdings : List Holding)
    (lookup : SectorLookup) (a : SectorAttribution)
    (h : sectorAttribute fc holdings lookup = .ok a) :
    ∃ dom, holdings ≠ [] ∧ pickDominant (resolve lookup holdings) = some dom ∧
      a = ⟨fc, dom, domName (resolve lookup holdings) dom,
        sectorWeight (resolve lookup holdings) dom / resolvedWeight (resolve lookup holdings),
        justification (resolve lookup holdings) dom
          (decide (resolvedWeight (resolve lookup holdings)
            < (holdings.map (fun h => h.weight)).sum / 2)),
        decide (resolvedWeight (resolve lookup holdings)
          < (holdings.map (fun h => h.weight)).sum / 2)⟩ := by
  by_cases hne : holdings = []
  · rw [hne] at h
    cases h
  · cases hdom : pickDominant (resolve lookup holdings) with
    | none =>
        exfalso
        unfold sectorAttribute at h
        rw [if_neg (by simpa [List.isEmpty_iff] using hne), hdom] at h
        cases h
    | some dom =>
        refine ⟨dom, hne, rfl, ?_⟩
        rw [sectorAttribute_eq_ok fc holdings lookup dom hne hdom] at h
        exact (Except.ok.inj h).symm

theorem resolve_weight_nonneg (lookup : SectorLookup) (holdings : List Holding)
    (hw : ∀ h ∈ holdings, 0 ≤ h.weight) :
    ∀ r ∈ resolve lookup holdings, 0 ≤ r.holding.weight := by
  intro r hr
  obtain ⟨h, hh, hmap⟩ := List.mem_filterMap.mp hr
  obtain ⟨s, _, hs2⟩ := Option.map_eq_some'.mp hmap
  rw [← hs2]
  exact hw h hh

theorem filter_weight_sum_le (R : List ResolvedHolding) (p : ResolvedHolding → Bool)
    (hw : ∀ r ∈ R, 0 ≤ r.holding.weight) :
    ((R.filter p).map (fun r => r.holding.weight)).sum
      ≤ (R.map (fun r => r.holding.weight)).sum := by
  induction R with
  | nil => simp
  | cons r t ih =>
      have hr : 0 ≤ r.holding.weight := hw r (List.mem_cons_self r t)
      have ht : ∀ x ∈ t, 0 ≤ x.holding.weight :=
        fun x hx => hw x (List.mem_cons_of_mem r hx)
      by_cases hp : p r = true
      · rw [List.filter_cons, if_pos hp]
        simp only [List.map_cons, List.sum_cons]
        linarith [ih ht]
      · rw [List.filter_cons, if_neg hp]
        simp only [List.map_cons, List.sum_cons]
        linarith [ih ht]

theorem resolvedWeight_nonneg (R : List ResolvedHolding)
    (hw : ∀ r ∈ R, 0 ≤ r.holding.weight) : 0 ≤ resolvedWeight R := by
  apply List.sum_nonneg
  intro x hx
  obtain ⟨r, hr, hrx⟩ := List.mem_map.mp hx
  rw [← hrx]
  exact hw r hr

theorem sectorWeight_nonneg (R : List ResolvedHolding) (s : String)
    (hw : ∀ r ∈ R, 0 ≤ r.holding.weight) : 0 ≤ sectorWeight R s := by
  apply List.sum_nonneg
  intro x hx
  obtain ⟨r, hr, hrx⟩ := List.mem_map.mp hx
  rw [← hrx]
  exact hw r (List.mem_of_mem_filter hr)

/-! ## Claims about the attribution engine -/

/-- C4: attribute fails with the typed error InsufficientData on the
empty holdings snapshot, and it never returns a default sector in place
of an error: every successfully returned sector is the resolved sector
of some holding of the snapshot. -/
theorem sectorAttribute_empty_insufficient :
    (∀ (fc : String) (lookup : SectorLookup),
        sectorAttribute fc [] lookup = .error .InsufficientData) ∧
    (∀ (fc : String) (holdings : List Holding) (lookup : SectorLookup)
        (a : SectorAttribution),
        sectorAttribute fc holdings lookup = .ok a →
        ∃ h ∈ holdings, ∃ nm, lookup h.stockCode = some (a.sector, nm)) := by
  constructor
  · intro fc lookup
    rfl
  · intro fc holdings lookup a h
    obtain ⟨dom, hne, hdom, ha⟩ := sectorAttribute_ok_elim fc holdings lookup a h
    have hsec : a.sector = dom := by rw [ha]
    obtain ⟨r, hr, hrc⟩ :=
      (mem_sectorCodes_iff (resolve lookup holdings) dom).mp
        (pickDominant_mem (resolve lookup holdings) dom hdom)
    obtain ⟨h0, hh0, hmap⟩ := List.mem_filterMap.mp hr
    obtain ⟨s, hs1, hs2⟩ := Option.map_eq_some'.mp hmap
    refine ⟨h0, hh0, s.2, ?_⟩
    rw [hsec, ← hrc, ← hs2]
    simpa using hs1

/-- Single-holding snapshot used to witness C4. -/
def c4holdings : List Holding := [⟨"A", "StockA", 50, 1⟩]

/-- Sector lookup used to witness C4: stock A resolves to sector S1. -/
def c4lookup : SectorLookup :=
  fun c => if c == "A" then some ("S1", "SectorOne") else none

/-- The attribution returned on the C4 witness input. -/
def c4attr : SectorAttribution :=
  ⟨"F", "S1", domName (resolve c4lookup c4holdings) "S1",
    sectorWeight (resolve c4lookup c4holdings) "S1"
      / resolvedWeight (resolve c4lookup c4holdings),
    justification (resolve c4lookup c4holdings) "S1"
      (decide (resolvedWeight (resolve c4lookup c4holdings)
        < (c4holdings.map (fun h => h.weight)).sum / 2)),
    decide (resolvedWeight (resolve c4lookup c4holdings)
      < (c4holdings.map (fun h => h.weight)).sum / 2)⟩

/-- C4 witness: on the single-holding snapshot the returned sector S1
is the resolved sector of holding A. -/
theorem sectorAttribute_empty_insufficient_witness :
    ∃ h ∈ c4holdings, ∃ nm, c4lookup h.stockCode = some ("S1", nm) :=
  sectorAttribute_empty_insufficient.2 "F" c4holdings c4lookup c4attr
    (sectorAttribute_eq_ok "F" c4holdings c4lookup "S1" (by simp [c4holdings]) rfl)

/-- Snapshot of the C5 scenario: two Liquor holdings totalling 80
percent, one 20 percent holding with unknown sector. -/
def c5holdings : List Holding :=
  [⟨"A", "Moutai", 50, 1⟩, ⟨"B", "Wuliangye", 30, 2⟩, ⟨"C", "Other", 20, 3⟩]

/-- Sector lookup of the C5 scenario: A and B resolve to Liquor, C is
unknown. -/
def c5lookup : SectorLookup :=
  fun c => if c == "A" || c == "B" then some ("Liquor", "LiquorGroup") else none

/-- The attribution returned on the C5 scenario input. -/
def c5attr : SectorAttribution :=
  ⟨"F", "Liquor", domName (resolve c5lookup c5holdings) "Liquor",
    sectorWeight (resolve c5lookup c5holdings) "Liquor"
      / resolvedWeight (resolve c5lookup c5holdings),
    justification (resolve c5lookup c5holdings) "Liquor"
      (decide (resolvedWeight (resolve c5lookup c5holdings)
        < (c5holdings.map (fun h => h.weight)).sum / 2)),
    decide (resolvedWeight (resolve c5lookup c5holdings)
      < (c5holdings.map (fun h => h.weight)).sum / 2)⟩

/-- C5: for every snapshot with nonnegative weights on which attribute
succeeds, the confidence equals the aggregate weight of the dominant
sector divided by the sum of the weights of all holdings with a
resolved sector, and it lies in the unit interval; in the scenario
where the resolved holdings all map to Liquor with total weight 80 and
the remaining 20 are unknown, the sector is Liquor and the confidence
is exactly 1. -/
theorem sectorAttribute_confidence :
    (∀ (fc : String) (holdings : List Holding) (lookup : SectorLookup)
        (a : SectorAttribution),
        (∀ h ∈ holdings, 0 ≤ h.weight) →
        sectorAttribute fc holdings lookup = .ok a →
        a.confidence = sectorWeight (resolve lookup holdings) a.sector
            / resolvedWeight (resolve lookup holdings) ∧
        0 ≤ a.confidence ∧ a.confidence ≤ 1) ∧
    (∃ a, sectorAttribute "F" c5holdings c5lookup = .ok a ∧
        a.sector = "Liquor" ∧ a.confidence = 1) := by
  have main : ∀ (fc : String) (holdings : List Holding) (lookup : SectorLookup)
      (a : SectorAttribution),
      (∀ h ∈ holdings, 0 ≤ h.weight) →
      sectorAttribute fc holdings lookup = .ok a →
      a.confidence = sectorWeight (resolve lookup holdings) a.sector
          / resolvedWeight (resolve lookup holdings) ∧
      0 ≤ a.confidence ∧ a.confidence ≤ 1 := by
    intro fc holdings lookup a hw h
    obtain ⟨dom, hne, hdom, ha⟩ := sectorAttribute_ok_elim fc holdings lookup a h
    have hsec : a.sector = dom := by rw [ha]
    have hconf : a.confidence = sectorWeight (resolve lookup holdings) dom
        / resolvedWeight (resolve lookup holdings) := by rw [ha]
    have hRw := resolve_weight_nonneg lookup holdings hw
    have hWnn := sectorWeight_nonneg (resolve lookup holdings) dom hRw
    have hrw := resolvedWeight_nonneg (resolve lookup holdings) hRw
    have hle : sectorWeight (resolve lookup holdings) dom
        ≤ resolvedWeight (resolve lookup holdings) :=
      filter_weight_sum_le (resolve lookup holdings) (fun r => r.sectorCode == dom) hRw
    refine ⟨by rw [hconf, hsec], ?_, ?_⟩
    · rw [hconf]
      exact div_nonneg hWnn hrw
    · rw [hconf]
      rcases eq_or_lt_of_le hrw with hz | hpos
      · rw [← hz, div_zero]
        norm_num
      · exact (div_le_one hpos).mpr hle
  refine ⟨main, c5attr, ?_, rfl, ?_⟩
  · exact sectorAttribute_eq_ok "F" c5holdings c5lookup "Liquor" (by simp [c5holdings]) rfl
  · show sectorWeight (resolve c5lookup c5holdings) "Liquor"
        / resolvedWeight (resolve c5lookup c5holdings) = 1
    have hres : resolve c5lookup c5holdings =
        [⟨⟨"A", "Moutai", 50, 1⟩, "Liquor", "LiquorGroup"⟩,
         ⟨⟨"B", "Wuliangye", 30, 2⟩, "Liquor", "LiquorGroup"⟩] := rfl
    rw [hres]
    simp [sectorWeight, resolvedWeight]
    norm_num

/-- C5 witness: the universal part of C5 applied to the concrete Liquor
scenario snapshot. -/
theorem sectorAttribute_confidence_witness :
    c5attr.confidence = sectorWeight (resolve c5lookup c5holdings) c5attr.sector
        / resolvedWeight (resolve c5lookup c5holdings) ∧
    0 ≤ c5attr.confidence ∧ c5attr.confidence ≤ 1 :=
  sectorAttribute_confidence.1 "F" c5holdings c5lookup c5attr
    (by intro h hh; fin_cases hh <;> norm_num [c5holdings])
    (sectorAttribute_eq_ok "F" c5holdings c5lookup "Liquor" (by simp [c5holdings]) rfl)

/-! ## Scale invariance of the attribution -/

/-- A holding with its weight scaled by t, the codes unchanged. -/
def scaleHolding (t : ℚ) (h : Holding) : Holding :=
  ⟨h.stockCode, h.stockName, t * h.weight, h.rank⟩

/-- A resolved holding with its weight scaled by t. -/
def scaleResolved (t : ℚ) (r : ResolvedHolding) : ResolvedHolding :=
  ⟨scaleHolding t r.holding, r.sectorCode, r.sectorName⟩

theorem sectorWeight_scale (R : List ResolvedHolding) (t : ℚ) (s : String) :
    sectorWeight (R.map (scaleResolved t)) s = t * sectorWeight R s := by
  unfold sectorWeight
  rw [List.filter_map, List.map_map]
  have h1 : ((fun r => r.sectorCode == s) ∘ scaleResolved t)
      = (fun r : ResolvedHolding => r.sectorCode == s) := rfl
  have h2 : ((fun r => r.holding.weight) ∘ scaleResolved t)
      = (fun r : ResolvedHolding => t * r.holding.weight) := rfl
  rw [h1, h2]
  exact List.sum_map_mul_left _ (fun r : ResolvedHolding => r.holding.weight) t

theorem foldr_max_map_mul (l : List ℚ) (t : ℚ) (ht : 0 ≤ t) :
    (l.map (fun x => t * x)).foldr max 0 = t * l.foldr max 0 := by
  induction l with
  | nil => simp
  | cons x l ih =>
      simp only [List.map_cons, List.foldr_cons, ih]
      exact (mul_max_of_nonneg _ _ ht).symm

theorem sectorTopHolding_scale (R : List ResolvedHolding) (t : ℚ) (s : String)
    (ht : 0 ≤ t) :
    sectorTopHolding (R.map (scaleResolved t)) s = t * sectorTopHolding R s := by
  unfold sectorTopHolding
  rw [List.filter_map, List.map_map]
  have h1 : ((fun r => r.sectorCode == s) ∘ scaleResolved t)
      = (fun r : ResolvedHolding => r.sectorCode == s) := rfl
  have h2 : ((fun r => r.holding.weight) ∘ scaleResolved t)
      = ((fun x : ℚ => t * x) ∘ (fun r : ResolvedHolding => r.holding.weight)) := rfl
  rw [h1, h2, ← List.map_map]
  exact foldr_max_map_mul _ t ht

theorem sectorCodes_scale (R : List ResolvedHolding) (t : ℚ) :
    sectorCodes (R.map (scaleResolved t)) = sectorCodes R := by
  unfold sectorCodes
  rw [List.map_map]
  rfl

theorem resolvedWeight_scale (R : List ResolvedHolding) (t : ℚ) :
    resolvedWeight (R.map (scaleResolved t)) = t * resolvedWeight R := by
  unfold resolvedWeight
  rw [List.map_map]
  have h2 : ((fun r => r.holding.weight) ∘ scaleResolved t)
      = (fun r : ResolvedHolding => t * r.holding.weight) := rfl
  rw [h2]
  exact List.sum_map_mul_left _ (fun r : ResolvedHolding => r.holding.weight) t

theorem Better_scale (R : List ResolvedHolding) (t : ℚ) (a b : String) (ht : 0 < t) :
    Better (R.map (scaleResolved t)) a b ↔ Better R a b := by
  unfold Better
  rw [sectorWeight_scale, sectorWeight_scale, sectorTopHolding_scale _ _ _ ht.le,
    sectorTopHolding_scale _ _ _ ht.le]
  simp [mul_lt_mul_left ht, mul_right_inj' ht.ne']

theorem pickDominant_scale (R : List ResolvedHolding) (t : ℚ) (ht : 0 < t) :
    pickDominant (R.map (scaleResolved t)) = pickDominant R := by
  unfold pickDominant
  rw [sectorCodes_scale]
  cases sectorCodes R with
  | nil => rfl
  | cons s rest =>
      have hf : (fun best c => if Better (R.map (scaleResolved t)) c best then c else best)
          = (fun best c => if Better R c best then c else best) := by
        funext best c
        by_cases hb : Better R c best
        · rw [if_pos hb, if_pos ((Better_scale R t c best ht).mpr hb)]
        · rw [if_neg hb, if_neg (fun hx => hb ((Better_scale R t c best ht).mp hx))]
      rw [hf]

/-- C6: scaling down the resolved (known-sector) holdings of a snapshot
by a factor t in (0, 1] while the unknown-sector share grows leaves the
dominant sector unchanged and never increases the confidence (here the
confidence is in fact unchanged, hence less than or equal). -/
theorem sectorAttribute_unknown_monotone :
    ∀ (fc : String) (s1 s2 : List Holding) (lookup : SectorLookup) (t : ℚ),
      0 < t → t ≤ 1 →
      resolve lookup s2 = (resolve lookup s1).map (scaleResolved t) →
      resolve lookup s1 ≠ [] →
      ∃ a1 a2, sectorAttribute fc s1 lookup = .ok a1 ∧
        sectorAttribute fc s2 lookup = .ok a2 ∧
        a2.confidence ≤ a1.confidence := by
  intro fc s1 s2 lookup t ht0 ht1 hR hne
  have hne1 : s1 ≠ [] := fun h => hne (by rw [h]; rfl)
  have hne2R : resolve lookup s2 ≠ [] := by
    rw [hR]
    intro h
    exact hne (List.map_eq_nil_iff.mp h)
  have hne2 : s2 ≠ [] := fun h => hne2R (by rw [h]; rfl)
  obtain ⟨dom, hdom⟩ := pickDominant_of_ne_nil _ hne
  have hdom2 : pickDominant (resolve lookup s2) = some dom := by
    rw [hR, pickDominant_scale _ _ ht0, hdom]
  refine ⟨_, _, sectorAttribute_eq_ok fc s1 lookup dom hne1 hdom,
    sectorAttribute_eq_ok fc s2 lookup dom hne2 hdom2, ?_⟩
  show sectorWeight (resolve lookup s2) dom / resolvedWeight (resolve lookup s2)
      ≤ sectorWeight (resolve lookup s1) dom / resolvedWeight (resolve lookup s1)
  rw [hR, sectorWeight_scale, resolvedWeight_scale,
    mul_div_mul_left _ _ ht0.ne']

/-- Snapshot used as the first C6 witness input: a single resolved
holding of weight 60. -/
def c6s1 : List Holding := [⟨"A", "StockA", 60, 1⟩]

/-- Snapshot used as the second C6 witness input: the resolved holding
scaled to weight 30, the other 50 percent unknown. -/
def c6s2 : List Holding := [⟨"A", "StockA", 30, 1⟩, ⟨"B", "Mystery", 50, 2⟩]

/-- Sector lookup for the C6 witness: only stock A resolves. -/
def c6lookup : SectorLookup :=
  fun c => if c == "A" then some ("S1", "SectorOne") else none

/-- C6 witness: halving the resolved share while the unknown share
grows keeps both attributions successful with non-increasing
confidence. -/
theorem sectorAttribute_unknown_monotone_witness :
    ∃ a1 a2, sectorAttribute "F" c6s1 c6lookup = .ok a1 ∧
      sectorAttribute "F" c6s2 c6lookup = .ok a2 ∧
      a2.confidence ≤ a1.confidence :=
  sectorAttribute_unknown_monotone "F" c6s1 c6s2 c6lookup (1 / 2)
    (by norm_num) (by norm_num)
    (by
      have h1 : resolve c6lookup c6s2 =
          [⟨⟨"A", "StockA", 30, 1⟩, "S1", "SectorOne"⟩] := rfl
      have h2 : (resolve c6lookup c6s1).map (scaleResolved (1 / 2)) =
          [⟨⟨"A", "StockA", 1 / 2 * 60, 1⟩, "S1", "SectorOne"⟩] := rfl
      rw [h1, h2]
      norm_num)
    (by
      have h3 : resolve c6lookup c6s1 =
          [⟨⟨"A", "StockA", 60, 1⟩, "S1", "SectorOne"⟩] := rfl
      rw [h3]
      simp)

/-- C7: attribute is deterministic (extensionally equal lookups and
identical snapshots give identical results, justification string
included), and on a tie in aggregate weight the returned sector beats
every other resolved sector either through a strictly larger top
holding or, when those tie as well, through the lexicographically
smaller sector code. -/
theorem sectorAttribute_deterministic_tiebreak :
    (∀ (fc : String) (holdings : List Holding) (lookup lookup2 : SectorLookup),
        (∀ c, lookup c = lookup2 c) →
        sectorAttribute fc holdings lookup = sectorAttribute fc holdings lookup2) ∧
    (∀ (fc : String) (holdings : List Holding) (lookup : SectorLookup)
        (a : SectorAttribution) (s : String),
        sectorAttribute fc holdings lookup = .ok a →
        s ∈ sectorCodes (resolve lookup holdings) →
        s ≠ a.sector →
        sectorWeight (resolve lookup holdings) s
          = sectorWeight (resolve lookup holdings) a.sector →
        sectorTopHolding (resolve lookup holdings) s
            < sectorTopHolding (resolve lookup holdings) a.sector ∨
          (sectorTopHolding (resolve lookup holdings) s
              = sectorTopHolding (resolve lookup holdings) a.sector ∧
            a.sector < s)) := by
  constructor
  · intro fc holdings lookup lookup2 h
    have hl : lookup = lookup2 := funext h
    rw [hl]
  · intro fc holdings lookup a s h hs hne hWeq
    obtain ⟨dom, _, hdom, ha⟩ := sectorAttribute_ok_elim fc holdings lookup a h
    have hsec : a.sector = dom := by rw [ha]
    rw [hsec] at hne hWeq ⊢
    have hnb : ¬ Better (resolve lookup holdings) s dom :=
      pickDominant_max (resolve lookup holdings) dom hdom s hs
    unfold Better at hnb
    push_neg at hnb
    obtain ⟨hW1, hrest⟩ := hnb
    obtain ⟨hT1, hrest2⟩ := hrest hWeq
    rcases lt_or_eq_of_le hT1 with hT | hT
    · exact Or.inl hT
    · exact Or.inr ⟨hT, lt_of_le_of_ne (hrest2 hT) (fun hx => hne hx.symm)⟩

/-- Snapshot of the C7 witness: sector S1 holds stock A with weight 30,
sector S2 holds stocks B and C with weights 20 and 10, so the aggregate
weights tie at 30 and the top holding breaks the tie towards S1. -/
def c7holdings : List Holding :=
  [⟨"A", "StockA", 30, 1⟩, ⟨"B", "StockB", 20, 2⟩, ⟨"C", "StockC", 10, 3⟩]

/-- Sector lookup of the C7 witness: A in S1, B and C in S2. -/
def c7lookup : SectorLookup :=
  fun c => if c == "A" then some ("S1", "SectorOne")
    else if c == "B" || c == "C" then some ("S2", "SectorTwo") else none

/-- The attribution returned on the C7 witness input. -/
def c7attr : SectorAttribution :=
  ⟨"F", "S1", domName (resolve c7lookup c7holdings) "S1",
    sectorWeight (resolve c7lookup c7holdings) "S1"
      / resolvedWeight (resolve c7lookup c7holdings),
    justification (resolve c7lookup c7holdings) "S1"
      (decide (resolvedWeight (resolve c7lookup c7holdings)
        < (c7holdings.map (fun h => h.weight)).sum / 2)),
    decide (resolvedWeight (resolve c7lookup c7holdings)
      < (c7holdings.map (fun h => h.weight)).sum / 2)⟩

theorem c7_sectorWeight_S1 :
    sectorWeight (resolve c7lookup c7holdings) "S1" = 30 := by
  have h : sectorWeight (resolve c7lookup c7holdings) "S1" = ([(30 : ℚ)]).sum := rfl
  rw [h]
  simp

theorem c7_sectorWeight_S2 :
    sectorWeight (resolve c7lookup c7holdings) "S2" = 30 := by
  have h : sectorWeight (resolve c7lookup c7holdings) "S2"
      = ([(20 : ℚ), 10]).sum := rfl
  rw [h]
  norm_num

theorem c7_sectorTop_S1 :
    sectorTopHolding (resolve c7lookup c7holdings) "S1" = 30 := by
  have h : sectorTopHolding (resolve c7lookup c7holdings) "S1"
      = ([(30 : ℚ)]).foldr max 0 := rfl
  rw [h]
  simp [List.foldr]

theorem c7_sectorTop_S2 :
    sectorTopHolding (resolve c7lookup c7holdings) "S2" = 20 := by
  have h : sectorTopHolding (resolve c7lookup c7holdings) "S2"
      = ([(20 : ℚ), 10]).foldr max 0 := rfl
  rw [h]
  simp [List.foldr]
  norm_num

theorem c7_pickDominant :
    pickDominant (resolve c7lookup c7holdings) = some "S1" := by
  have hB : ¬ Better (resolve c7lookup c7holdings) "S2" "S1" := by
    unfold Better
    rw [c7_sectorWeight_S1, c7_sectorWeight_S2, c7_sectorTop_S1, c7_sectorTop_S2]
    norm_num
  unfold pickDominant
  have hsc : sectorCodes (resolve c7lookup c7holdings) = ["S1", "S2"] := rfl
  rw [hsc]
  simp only [List.foldl_cons, List.foldl_nil]
  rw [if_neg hB]

/-- C7 witness: on the tied snapshot the dominant sector S1 beats S2
through its strictly larger top holding. -/
theorem sectorAttribute_deterministic_tiebreak_witness :
    sectorTopHolding (resolve c7lookup c7holdings) "S2"
        < sectorTopHolding (resolve c7lookup c7holdings) "S1" ∨
      (sectorTopHolding (resolve c7lookup c7holdings) "S2"
          = sectorTopHolding (resolve c7lookup c7holdings) "S1" ∧
        ("S1" : String) < "S2") :=
  sectorAttribute_deterministic_tiebreak.2 "F" c7holdings c7lookup c7attr "S2"
    (sectorAttribute_eq_ok "F" c7holdings c7lookup "S1"
      (by simp [c7holdings]) c7_pickDominant)
    (by
      have hsc : sectorCodes (resolve c7lookup c7holdings) = ["S1", "S2"] := rfl
      rw [hsc]
      simp)
    (by decide)
    (by
      show sectorWeight (resolve c7lookup c7holdings) "S2"
          = sectorWeight (resolve c7lookup c7holdings) "S1"
      rw [c7_sectorWeight_S1, c7_sectorWeight_S2])

/-! ## Frontend: FundHeaderCard (from
src/frontend/src/components/dashboard/FundHeaderCard.tsx) -/

/-- The fund record consumed by FundHeaderCard, with the fields the
component reads. -/
structure Fund where
  code : String
  name : String
  current : ℚ
  change : ℚ
  change_percent : ℚ
  market_closed : Bool
  net_value_date : String
  update_time : String
deriving DecidableEq, Repr

/-- Translation of the hasNoData test: fund.current === 0. -/
def hasNoData (f : Fund) : Bool :=
  decide (f.current = 0)

/-- Translation of the isMarketClosed test: fund.market_closed and
fund.current greater than 0. -/
def isMarketClosed (f : Fund) : Bool :=
  f.market_closed && decide (0 < f.current)

/-- Translation of the isUp test: fund.change at least 0. -/
def isUp (f : Fund) : Bool :=
  decide (0 ≤ f.change)

/-- What the price section of FundHeaderCard renders: either the
no-data placeholder with the literal text of the component, or the
numeric figures (current value, absolute change, percent change, up
flag). -/
inductive PriceDisplay where
  | placeholder (text : String)
  | figures (current change changePercent : ℚ) (up : Bool)
deriving DecidableEq, Repr

/-- Translation of the price-section branch of FundHeaderCard: when
hasNoData the component shows the placeholder and suppresses the
change figures, otherwise it shows the numeric figures. -/
def renderPriceSection (f : Fund) : PriceDisplay :=
  if hasNoData f then .placeholder "--"
  else .figures f.current f.change f.change_percent (isUp f)

/-- Translation of the caption line under the price section. -/
def captionText (f : Fund) : String :=
  if isMarketClosed f then "上个交易日: " ++ f.net_value_date
  else if hasNoData f then "市场休市"
  else "估值时间: " ++ f.update_time

/-- C9: FundHeaderCard renders the no-data placeholder exactly when the
current value is 0, suppressing the change and percent-change figures,
and renders the numeric figures (carrying the fund values unchanged)
exactly when the current value is nonzero. -/
theorem fundHeader_no_data :
    ∀ f : Fund,
      (renderPriceSection f = .placeholder "--" ↔ f.current = 0) ∧
      (∀ (c ch cp : ℚ) (u : Bool), renderPriceSection f = .figures c ch cp u →
        f.current ≠ 0 ∧ c = f.current ∧ ch = f.change ∧ cp = f.change_percent) := by
  intro f
  by_cases h : f.current = 0
  · constructor
    · simp [renderPriceSection, hasNoData, h]
    · intro c ch cp u hfig
      rw [renderPriceSection] at hfig
      rw [if_pos (by simp [hasNoData, h])] at hfig
      cases hfig
  · constructor
    · simp [renderPriceSection, hasNoData, h]
    · intro c ch cp u hfig
      rw [renderPriceSection] at hfig
      rw [if_neg (by simp [hasNoData, h])] at hfig
      cases hfig
      exact ⟨h, rfl, rfl, rfl⟩

/-- C9 witness: a fund with current value 0 renders the placeholder,
and a fund with nonzero current value renders its own figures. -/
theorem fundHeader_no_data_witness :
    renderPriceSection ⟨"161725", "Fund", 0, 0, 0, false, "d", "t"⟩
        = .placeholder "--" ∧
      ((⟨"161725", "Fund", 15162 / 10000, 162 / 10000, 108 / 100, false, "d", "t"⟩ :
          Fund).current ≠ 0) := by
  constructor
  · exact (fundHeader_no_data ⟨"161725", "Fund", 0, 0, 0, false, "d", "t"⟩).1.mpr rfl
  · exact ((fundHeader_no_data
      ⟨"161725", "Fund", 15162 / 10000, 162 / 10000, 108 / 100, false, "d", "t"⟩).2
      (15162 / 10000) (162 / 10000) (108 / 100) true
      (by
        rw [renderPriceSection]
        rw [if_neg (by norm_num [hasNoData])]
        simp only [isUp, PriceDisplay.figures.injEq]
        norm_num)).1

/-! ## Frontend: HomePage chart period (from src/frontend/src/app/page.tsx) -/

/-- Translation of the PERIODS table of HomePage: label and
backend-supported period code. -/
def PERIODS : List (String × String) :=
  [("分时", "1d"), ("日K", "1m"), ("周K", "3m"), ("月K", "1y")]

/-- The backend-supported period codes, in table order. -/
def periodValues : List String := PERIODS.map (fun p => p.2)

/-- Translation of the setChartPeriod wrapper of HomePage: look the
requested value up in PERIODS; on a hit store the validated value, on a
miss keep the current state (the component only logs an error). -/
def setChartPeriod (current : String) (value : String) : String :=
  match PERIODS.find? (fun p => p.2 == value) with
  | some p => p.2
  | none => current

/-- C10: the chart-period state of HomePage only ever holds one of the
four backend-supported codes: a request with an invalid value leaves
the state unchanged, a request from a valid state always lands in a
valid state, and the initial state 1d is valid. -/
theorem chartPeriod_invariant :
    (∀ (cur v : String), v ∉ periodValues → setChartPeriod cur v = cur) ∧
    (∀ (cur v : String), cur ∈ periodValues → setChartPeriod cur v ∈ periodValues) ∧
    "1d" ∈ periodValues := by
  refine ⟨?_, ?_, by decide⟩
  · intro cur v hv
    unfold setChartPeriod
    have hnone : PERIODS.find? (fun p => p.2 == v) = none := by
      rw [List.find?_eq_none]
      intro p hp hbeq
      exact hv (by
        rw [← beq_iff_eq.mp hbeq]
        exact List.mem_map.mpr ⟨p, hp, rfl⟩)
    rw [hnone]
  · intro cur v hcur
    unfold setChartPeriod
    cases hf : PERIODS.find? (fun p => p.2 == v) with
    | none => exact hcur
    | some p =>
        exact List.mem_map.mpr ⟨p, List.mem_of_find?_eq_some hf, rfl⟩

/-- C10 witness: the invalid request 2d leaves the valid state 1d
unchanged, and a transition from 1d stays inside the valid codes. -/
theorem chartPeriod_invariant_witness :
    setChartPeriod "1d" "2d" = "1d" ∧ setChartPeriod "1d" "3m" ∈ periodValues := by
  constructor
  · exact chartPeriod_invariant.1 "1d" "2d" (by decide)
  · exact chartPeriod_invariant.2.1 "1d" "3m" (by decide)
